import Mathlib

/-!
Shallow embedding of the audio post-processing and multi-segment assembly
pipeline of the ODIADEV TTS repository.

Sources embedded here:
* `engines/mms_tts.py` / `engines/xtts_engine.py` (identical copies):
  `TARGET_PEAK`, `_soft_limit`, `_trim_trailing_silence`.
* `scripts/simple_demo.py` / `scripts/multilang_demo.py`:
  `synthesize_segment` (fallback-language dispatch), and the tail of `main`
  (concatenation with linear-interpolation resampling, final peak limiting,
  trailing-silence trimming, WAV write, duration/peak validation, exit code).

Audio samples are modelled exactly: rational numbers `ℚ` for the parts of the
code that only compare, scale and slice samples (so they stay executable), and
real numbers `ℝ` for the parts that apply the transcendental functions
`np.tanh` and `np.log10`.  Python's `int(...)` on the non-negative quantities
appearing here is floor, modelled with `Nat` division / `Int.floor`.
-/

namespace TTSPipeline

/-- `np.max(np.abs(x))` over a buffer, with value `0` on the empty buffer
(the Python callers guard the empty case before calling `np.max`). -/
def maxAbs {α : Type} [LinearOrderedField α] (x : List α) : α :=
  x.foldr (fun a m => max |a| m) 0

/-- The last index of the buffer whose absolute value strictly exceeds
`thresh`: the value of `np.where(np.abs(x) > thresh)[0][-1]` in
`_trim_trailing_silence`, `none` when no sample is above the threshold. -/
def lastLoud {α : Type} [LinearOrderedField α] (x : List α) (thresh : α) :
    Option ℕ :=
  match x with
  | [] => none
  | a :: t =>
    match lastLoud t thresh with
    | some j => some (j + 1)
    | none => if thresh < |a| then some 0 else none

/-- `_trim_trailing_silence(x, sr, thresh, max_ms)` from
`engines/mms_tts.py` (the copy in `engines/xtts_engine.py` is identical):
empty buffers are returned unchanged; if no sample exceeds `thresh` the first
`int(sr * max_ms / 1000)` samples are kept; otherwise the buffer is cut at
`min(x.size, last + int(sr * max_ms / 1000))`. -/
def trimTrailingSilence {α : Type} [LinearOrderedField α] (x : List α)
    (sr : ℕ) (thresh : α) (maxMs : ℕ) : List α :=
  if x = [] then x
  else
    match lastLoud x thresh with
    | none => x.take (sr * maxMs / 1000)
    | some last => x.take (min x.length (last + sr * maxMs / 1000))

/-- `TARGET_PEAK = 10 ** (-1.0 / 20.0)` (≈ −1 dBFS) from the engine files. -/
noncomputable def TARGET_PEAK : ℝ := (10 : ℝ) ^ ((-1 : ℝ) / 20)

/-- `_soft_limit(x, target_peak)` from `engines/mms_tts.py` (the copy in
`engines/xtts_engine.py` is identical): empty and near-silent buffers are
returned unchanged; otherwise the buffer is scaled by
`target_peak / max_abs` when `max_abs > target_peak` (by `1.0` otherwise)
and passed through `np.tanh(y * 1.1)` elementwise. -/
noncomputable def softLimit (x : List ℝ) (targetPeak : ℝ) : List ℝ :=
  if x = [] then x
  else if maxAbs x < 1e-9 then x
  else
    let scale : ℝ := if targetPeak < maxAbs x then targetPeak / maxAbs x else 1
    x.map (fun s => Real.tanh (s * scale * 1.1))

/-- One point of `np.linspace(0, n, m)`: `i * n / (m - 1)` with an inclusive
endpoint (`0` for the degenerate `m ≤ 1` cases). -/
def linspacePoint {α : Type} [LinearOrderedField α] (n m i : ℕ) : α :=
  if m ≤ 1 then 0 else (i : α) * (n : α) / ((m - 1 : ℕ) : α)

/-- `np.interp(t, np.arange(n), fp)` for one query point `t`: clamp to the
first/last sample outside `[0, n-1]`, linear interpolation between the two
neighbouring samples inside. -/
def interpAt {α : Type} [LinearOrderedField α] [FloorRing α] (fp : List α)
    (t : α) : α :=
  if fp = [] then 0
  else if t ≤ 0 then fp.getD 0 0
  else if ((fp.length - 1 : ℕ) : α) ≤ t then fp.getD (fp.length - 1) 0
  else
    let j : ℕ := (⌊t⌋).toNat
    fp.getD j 0 + (t - (j : α)) * (fp.getD (j + 1) 0 - fp.getD j 0)

/-- The resampling branch of the demo `main` functions:
`new_length = int(len(audio) * target_sr / sr)` followed by
`np.interp(np.linspace(0, len(audio), new_length), np.arange(len(audio)),
audio)`. -/
def resampleLinear {α : Type} [LinearOrderedField α] [FloorRing α]
    (audio : List α) (sr target : ℕ) : List α :=
  let newLength : ℕ := (⌊(audio.length : α) * ((target : α) / (sr : α))⌋).toNat
  (List.range newLength).map
    (fun i => interpAt audio (linspacePoint audio.length newLength i))

/-- The failure mode of the segment concatenation step: the spec's
`EmptySequenceError`, realised in both demo scripts as the
`if not segments: ... return 1` exit path. -/
inductive AssembleError : Type
  | emptySequence
deriving DecidableEq

/-- The concatenation step of the demo `main` functions: the sample rate of
the first segment becomes the target rate, every segment with a different
rate is resampled by linear interpolation, and the buffers are concatenated
in order.  An empty segment list takes the error exit path. -/
def assemble {α : Type} [LinearOrderedField α] [FloorRing α]
    (segments : List (List α × ℕ)) : Except AssembleError (List α × ℕ) :=
  match segments with
  | [] => .error .emptySequence
  | first :: _ =>
    let targetSr := first.2
    let bufs := segments.map
      (fun seg => if seg.2 = targetSr then seg.1
                  else resampleLinear seg.1 seg.2 targetSr)
    .ok (bufs.foldr (· ++ ·) [], targetSr)

/-- `synthesize_segment(text, language, mms_engine)` from
`scripts/simple_demo.py`, with the external engine abstracted as the opaque
capability `synth` and the probed availability set as `avail`.  `"en"` is
always routed to the `"yor"` model (raising — `none` — when `"yor"` is not
available); any other unavailable language recurses with `"yor"`.  The
recursion in the source is unbounded when `"yor"` is itself unavailable, so
the embedding carries explicit fuel and returns `none` on exhaustion. -/
def synthesizeSegment {α : Type} (synth : String → String → List α × ℕ)
    (avail : List String) : ℕ → String → String → Option (List α × ℕ)
  | 0, _, _ => none
  | fuel + 1, text, lang =>
    if lang = "en" then
      if "yor" ∈ avail then some (synth text "yor") else none
    else if lang ∈ avail then some (synth text lang)
    else synthesizeSegment synth avail fuel text "yor"

/-- A concrete synthesis capability whose output buffer depends only on the
language actually used (`[1]` for the `"yor"` model, `[2]` otherwise),
used to exhibit that the value returned by `synthesizeSegment` carries no
record of a language fallback. -/
def synthProbe : String → String → List ℚ × ℕ :=
  fun _ lang => (if lang = "yor" then [1] else [2], 22050)

/-- The final peak-limiting step of the demo `main` functions:
`if max_val > 0.0: final_audio = final_audio * (0.9 / max_val)`. -/
noncomputable def demoPeakLimit (x : List ℝ) : List ℝ :=
  if 0 < maxAbs x then x.map (fun s => s * (0.9 / maxAbs x)) else x

/-- The inline trailing-silence trim of the demo `main` functions:
`final_audio[:last_non_silent[-1] + int(0.2 * target_sr)]` when some sample
exceeds `1e-3`, the buffer unchanged otherwise (unlike
`_trim_trailing_silence`, the fully-silent buffer is NOT cut here). -/
noncomputable def demoTrimTail (x : List ℝ) (sr : ℕ) : List ℝ :=
  match lastLoud x (1e-3 : ℝ) with
  | some last => x.take (last + (⌊(0.2 : ℝ) * (sr : ℝ)⌋).toNat)
  | none => x

/-- The buffer written to `outputs/demo_multilang_30s.wav` by the demo
`main` functions: peak limiting followed by the inline trailing trim. -/
noncomputable def demoArtifact (audio : List ℝ) (sr : ℕ) : List ℝ :=
  demoTrimTail (demoPeakLimit audio) sr

/-- `final_duration = len(final_audio) / target_sr` of the demo `main`. -/
noncomputable def demoDuration (audio : List ℝ) (sr : ℕ) : ℝ :=
  ((demoArtifact audio sr).length : ℝ) / (sr : ℝ)

/-- `peak_db = 20 * np.log10(np.max(np.abs(final_audio)) + 1e-9)` of the
demo `main`, computed on the finalized buffer. -/
noncomputable def demoPeakDb (audio : List ℝ) (sr : ℕ) : ℝ :=
  20 * Real.logb 10 (maxAbs (demoArtifact audio sr) + 1e-9)

/-- Outcome of the tail of the demo `main` functions: the buffer passed to
`sf.write` (which happens before any validation check) and the process exit
code. -/
structure DemoResult where
  artifact : List ℝ
  sampleRate : ℕ
  exitCode : ℕ

/-- The tail of `main` in `scripts/simple_demo.py` /
`scripts/multilang_demo.py`: post-process, write the WAV, then
`return 1` if the duration is outside `[27.0, 33.0]`, then `return 1` if
`peak_db > -0.5`, else `return 0`. -/
noncomputable def demoFinalize (audio : List ℝ) (sr : ℕ) : DemoResult :=
  { artifact := demoArtifact audio sr
    sampleRate := sr
    exitCode :=
      if ¬ (27 ≤ demoDuration audio sr ∧ demoDuration audio sr ≤ 33) then 1
      else if -0.5 < demoPeakDb audio sr then 1
      else 0 }

/-! ### Basic facts about `maxAbs` -/

theorem maxAbs_nil {α : Type} [LinearOrderedField α] :
    maxAbs ([] : List α) = 0 := rfl

theorem maxAbs_cons {α : Type} [LinearOrderedField α] (a : α) (t : List α) :
    maxAbs (a :: t) = max |a| (maxAbs t) := rfl

theorem maxAbs_nonneg {α : Type} [LinearOrderedField α] (x : List α) :
    0 ≤ maxAbs x := by
  induction x with
  | nil => simp [maxAbs]
  | cons a t ih => rw [maxAbs_cons]; exact le_trans ih (le_max_right _ _)

theorem le_maxAbs_of_mem {α : Type} [LinearOrderedField α] {a : α}
    {x : List α} (h : a ∈ x) : |a| ≤ maxAbs x := by
  induction x with
  | nil => cases h
  | cons b t ih =>
    rw [maxAbs_cons]
    rcases List.mem_cons.mp h with rfl | hmem
    · exact le_max_left _ _
    · exact le_trans (ih hmem) (le_max_right _ _)

theorem maxAbs_le {α : Type} [LinearOrderedField α] {c : α} {x : List α}
    (hc : 0 ≤ c) (h : ∀ a ∈ x, |a| ≤ c) : maxAbs x ≤ c := by
  induction x with
  | nil => simpa [maxAbs]
  | cons a t ih =>
    rw [maxAbs_cons]
    exact max_le (h a (List.mem_cons_self a t)) (ih fun b hb => h b (List.mem_cons_of_mem _ hb))

theorem maxAbs_eq_zero_forall {α : Type} [LinearOrderedField α] {x : List α}
    (h : maxAbs x = 0) : ∀ a ∈ x, a = 0 := by
  intro a ha
  have := le_maxAbs_of_mem ha
  rw [h] at this
  exact abs_eq_zero.mp (le_antisymm this (abs_nonneg a))

/-! ### Facts about `Real.tanh` -/

theorem tanh_eq_exp (t : ℝ) :
    Real.tanh t = (Real.exp (2 * t) - 1) / (Real.exp (2 * t) + 1) := by
  rw [Real.tanh_eq_sinh_div_cosh, Real.sinh_eq, Real.cosh_eq]
  have h0 : Real.exp t ≠ 0 := (Real.exp_pos t).ne'
  have h1 : Real.exp (2 * t) = Real.exp t * Real.exp t := by
    rw [two_mul, Real.exp_add]
  have h2 : Real.exp (-t) = (Real.exp t)⁻¹ := Real.exp_neg t
  have h3 : (0 : ℝ) < Real.exp t + (Real.exp t)⁻¹ := by positivity
  have h4 : (0 : ℝ) < Real.exp t * Real.exp t + 1 := by positivity
  rw [h1, h2]
  field_simp

theorem abs_tanh_lt_one (t : ℝ) : |Real.tanh t| < 1 := by
  rw [tanh_eq_exp, abs_div]
  have he : (0 : ℝ) < Real.exp (2 * t) := Real.exp_pos _
  rw [abs_of_pos (by linarith : (0:ℝ) < Real.exp (2 * t) + 1),
    div_lt_one (by linarith)]
  exact abs_lt.mpr ⟨by linarith, by linarith⟩

theorem tanh_nonneg {t : ℝ} (h : 0 ≤ t) : 0 ≤ Real.tanh t := by
  rw [tanh_eq_exp]
  have h1 : (1 : ℝ) ≤ Real.exp (2 * t) := by
    have := Real.add_one_le_exp (2 * t); linarith
  have h2 : (0 : ℝ) < Real.exp (2 * t) + 1 := by linarith
  exact div_nonneg (by linarith) h2.le

theorem tanh_le_tanh {s t : ℝ} (h : s ≤ t) : Real.tanh s ≤ Real.tanh t := by
  rw [tanh_eq_exp, tanh_eq_exp]
  have hs : (0 : ℝ) < Real.exp (2 * s) := Real.exp_pos _
  have ht : (0 : ℝ) < Real.exp (2 * t) := Real.exp_pos _
  have hle : Real.exp (2 * s) ≤ Real.exp (2 * t) :=
    Real.exp_le_exp.mpr (by linarith)
  rw [div_le_div_iff₀ (by linarith) (by linarith)]
  nlinarith

theorem abs_tanh (t : ℝ) : |Real.tanh t| = Real.tanh |t| := by
  rcases le_total 0 t with h | h
  · rw [abs_of_nonneg h, abs_of_nonneg (tanh_nonneg h)]
  · have h1 : Real.tanh t = -Real.tanh (-t) := by
      rw [← Real.tanh_neg, neg_neg]
    rw [abs_of_nonpos h, h1, abs_neg,
      abs_of_nonneg (tanh_nonneg (neg_nonneg.mpr h))]

theorem exp_point_two_le : Real.exp 0.2 ≤ 1.25 := by
  have h := Real.add_one_le_exp (-0.2)
  have hpos : (0 : ℝ) < Real.exp (-0.2) := Real.exp_pos _
  have hmul : Real.exp 0.2 * Real.exp (-0.2) = 1 := by
    rw [← Real.exp_add]; norm_num
  nlinarith

theorem exp_two_point_two_le : Real.exp 2.2 ≤ 9.3 := by
  have e1 : Real.exp 1 < 2.7182818286 := Real.exp_one_lt_d9
  have p1 : (0 : ℝ) < Real.exp 1 := Real.exp_pos 1
  have p2 : (0 : ℝ) < Real.exp 0.2 := Real.exp_pos _
  have h22 : Real.exp 2.2 = Real.exp 1 * Real.exp 1 * Real.exp 0.2 := by
    rw [← Real.exp_add, ← Real.exp_add]; norm_num
  have e02 := exp_point_two_le
  rw [h22]
  nlinarith

theorem tanh_one_point_one_le : Real.tanh 1.1 ≤ 0.86 := by
  rw [tanh_eq_exp]
  have h : (2 : ℝ) * 1.1 = 2.2 := by norm_num
  rw [h]
  have he := exp_two_point_two_le
  have hp : (0 : ℝ) < Real.exp 2.2 := Real.exp_pos _
  rw [div_le_iff₀ (by linarith)]
  nlinarith

/-- Any input of magnitude at most `1.1` comes out of `tanh` with magnitude
at most `0.86`. -/
theorem abs_tanh_le_of_le {u : ℝ} (h : |u| ≤ 1.1) : |Real.tanh u| ≤ 0.86 :=
  (abs_tanh u).le.trans ((tanh_le_tanh h).trans tanh_one_point_one_le)

/-! ### Bounds on `TARGET_PEAK` -/

theorem TARGET_PEAK_pos : 0 < TARGET_PEAK :=
  Real.rpow_pos_of_pos (by norm_num) _

theorem TARGET_PEAK_lt_one : TARGET_PEAK < 1 :=
  Real.rpow_lt_one_of_one_lt_of_neg (by norm_num) (by norm_num)

theorem TARGET_PEAK_pow_twenty : TARGET_PEAK ^ (20 : ℕ) = 1 / 10 := by
  rw [TARGET_PEAK, ← Real.rpow_natCast ((10 : ℝ) ^ ((-1 : ℝ) / 20)) 20,
    ← Real.rpow_mul (by norm_num : (0 : ℝ) ≤ 10)]
  rw [show ((-1 : ℝ) / 20) * ((20 : ℕ) : ℝ) = -1 by push_cast; ring,
    Real.rpow_neg_one]
  norm_num

theorem TARGET_PEAK_ge : (0.86 : ℝ) ≤ TARGET_PEAK := by
  by_contra h
  push_neg at h
  have h20 : TARGET_PEAK ^ (20 : ℕ) ≤ (0.86 : ℝ) ^ (20 : ℕ) :=
    pow_le_pow_left₀ TARGET_PEAK_pos.le h.le 20
  rw [TARGET_PEAK_pow_twenty] at h20
  norm_num at h20

/-! ### Facts about `lastLoud` and `trimTrailingSilence` -/

theorem lastLoud_eq_none_iff {α : Type} [LinearOrderedField α] {x : List α}
    {th : α} : lastLoud x th = none ↔ ∀ a ∈ x, ¬ th < |a| := by
  induction x with
  | nil => simp [lastLoud]
  | cons a t ih =>
    rw [lastLoud]
    cases h : lastLoud t th with
    | some j =>
      constructor
      · intro hc; cases hc
      · intro hall
        have hn : lastLoud t th = none :=
          ih.mpr fun b hb => hall b (List.mem_cons_of_mem _ hb)
        rw [h] at hn; cases hn
    | none =>
      have ht : ∀ b ∈ t, ¬ th < |b| := ih.mp h
      by_cases hl : th < |a|
      · simp only [if_pos hl]
        constructor
        · intro hc; cases hc
        · intro hall; exact absurd hl (hall a (List.mem_cons_self a t))
      · simp only [if_neg hl]
        constructor
        · intro _ b hb
          rcases List.mem_cons.mp hb with rfl | hbt
          · exact hl
          · exact ht b hbt
        · intro _; trivial

theorem lastLoud_lt_length {α : Type} [LinearOrderedField α] {x : List α}
    {th : α} {L : ℕ} (h : lastLoud x th = some L) : L < x.length := by
  induction x generalizing L with
  | nil => cases h
  | cons a t ih =>
    rw [lastLoud] at h
    cases h' : lastLoud t th with
    | some j =>
      rw [h'] at h
      obtain rfl : j + 1 = L := Option.some_inj.mp h
      have := ih h'
      simp only [List.length_cons]
      omega
    | none =>
      rw [h'] at h
      by_cases hl : th < |a|
      · rw [if_pos hl] at h
        obtain rfl : 0 = L := Option.some_inj.mp h
        simp
      · rw [if_neg hl] at h; cases h

theorem lastLoud_take {α : Type} [LinearOrderedField α] {x : List α} {th : α}
    {L m : ℕ} (h : lastLoud x th = some L) (hm : L < m) :
    lastLoud (x.take m) th = some L := by
  induction x generalizing L m with
  | nil => cases h
  | cons a t ih =>
    rw [lastLoud] at h
    cases m with
    | zero => omega
    | succ m' =>
      rw [List.take_succ_cons, lastLoud]
      cases h' : lastLoud t th with
      | some j =>
        rw [h'] at h
        obtain rfl : j + 1 = L := Option.some_inj.mp h
        rw [ih h' (by omega)]
      | none =>
        rw [h'] at h
        by_cases hl : th < |a|
        · rw [if_pos hl] at h
          obtain rfl : 0 = L := Option.some_inj.mp h
          have hq : ∀ b ∈ t, ¬ th < |b| := lastLoud_eq_none_iff.mp h'
          rw [lastLoud_eq_none_iff.mpr
            fun b hb => hq b (List.take_subset _ _ hb)]
          rw [if_pos hl]
        · rw [if_neg hl] at h; cases h

theorem maxAbs_take_le {α : Type} [LinearOrderedField α] (x : List α)
    (n : ℕ) : maxAbs (x.take n) ≤ maxAbs x :=
  maxAbs_le (maxAbs_nonneg x)
    fun a ha => le_maxAbs_of_mem (List.take_subset _ _ ha)

theorem trimTrailingSilence_eq_of_none {α : Type} [LinearOrderedField α]
    {x : List α} {th : α} (h : lastLoud x th = none) (sr ms : ℕ) :
    trimTrailingSilence x sr th ms = x.take (sr * ms / 1000) := by
  by_cases hx : x = []
  · subst hx; rw [trimTrailingSilence]; simp
  · rw [trimTrailingSilence, if_neg hx, h]

theorem trimTrailingSilence_eq_of_some {α : Type} [LinearOrderedField α]
    {x : List α} {th : α} {L : ℕ} (h : lastLoud x th = some L) (sr ms : ℕ) :
    trimTrailingSilence x sr th ms =
      x.take (min x.length (L + sr * ms / 1000)) := by
  have hx : x ≠ [] := by
    rintro rfl
    rw [show lastLoud ([] : List α) th = none from rfl] at h
    cases h
  rw [trimTrailingSilence, if_neg hx, h]

/-- C3 (counterexample): the Silence Trimmer is NOT idempotent for every
parameter setting.  With `sr = 16000`, `thresh = 1/1000` and `max_ms = 0`
(so that `int(sr * max_ms / 1000) = 0`), the buffer `[1, 1]` trims to `[1]`,
and trimming again yields `[]`. -/
theorem trimTrailingSilence_not_idempotent :
    trimTrailingSilence
        (trimTrailingSilence [(1 : ℚ), 1] 16000 (1/1000) 0) 16000 (1/1000) 0 ≠
      trimTrailingSilence [(1 : ℚ), 1] 16000 (1/1000) 0 := by
  have h2 : lastLoud [(1 : ℚ), 1] (1/1000) = some 1 := by
    rw [lastLoud, lastLoud, lastLoud]
    norm_num
  have e1 : trimTrailingSilence [(1 : ℚ), 1] 16000 (1/1000) 0 = [(1 : ℚ)] := by
    rw [trimTrailingSilence_eq_of_some h2]
    norm_num
  rw [e1]
  have h1 : lastLoud [(1 : ℚ)] (1/1000) = some 0 := by
    rw [lastLoud, lastLoud]
    norm_num
  rw [trimTrailingSilence_eq_of_some h1]
  norm_num

/-- C3 (amended): the Silence Trimmer is idempotent for every buffer,
threshold, sample rate and max-tail setting whose retained-tail sample count
`int(sample_rate * max_tail_ms / 1000)` is at least one (this covers the
defaults `16000 Hz` / `200 ms` and every realistic configuration; the
counterexample above shows the zero-tail settings genuinely fail). -/
theorem trimTrailingSilence_idempotent (α : Type) [LinearOrderedField α]
    (x : List α) (sr : ℕ) (th : α) (ms : ℕ) (hk : 1 ≤ sr * ms / 1000) :
    trimTrailingSilence (trimTrailingSilence x sr th ms) sr th ms =
      trimTrailingSilence x sr th ms := by
  cases h : lastLoud x th with
  | none =>
    rw [trimTrailingSilence_eq_of_none h sr ms]
    have hq : lastLoud (x.take (sr * ms / 1000)) th = none :=
      lastLoud_eq_none_iff.mpr fun b hb =>
        lastLoud_eq_none_iff.mp h b (List.take_subset _ _ hb)
    rw [trimTrailingSilence_eq_of_none hq sr ms, List.take_take]
    simp
  | some L =>
    have hL : L < x.length := lastLoud_lt_length h
    have hLm : L < min x.length (L + sr * ms / 1000) := by omega
    rw [trimTrailingSilence_eq_of_some h sr ms]
    rw [trimTrailingSilence_eq_of_some (lastLoud_take h hLm) sr ms]
    rw [List.length_take, List.take_take]
    congr 1
    omega

/-- C3 (witness for the amended theorem): at the default parameters
`sr = 16000`, `thresh = 1/1000`, `max_ms = 200` the tail allowance is
`3200 ≥ 1` samples and trimming `[1, 1]` twice equals trimming it once. -/
theorem trimTrailingSilence_idempotent_w :
    1 ≤ 16000 * 200 / 1000 ∧
    trimTrailingSilence
        (trimTrailingSilence [(1 : ℚ), 1] 16000 (1/1000) 200) 16000
        (1/1000) 200 =
      trimTrailingSilence [(1 : ℚ), 1] 16000 (1/1000) 200 :=
  ⟨by norm_num,
    trimTrailingSilence_idempotent ℚ [(1 : ℚ), 1] 16000 (1/1000) 200
      (by norm_num)⟩

/-- C4 (counterexample): a non-empty fully-silent buffer IS sometimes
returned whole.  The one-sample silent buffer `[0]` at `16000 Hz` with the
default threshold `1/1000` and `max_ms = 200` has fewer samples than the
`3200`-sample tail allowance, so `x[:3200]` is the full silent buffer. -/
theorem trimTrailingSilence_full_silent :
    trimTrailingSilence [(0 : ℚ)] 16000 (1/1000) 200 = [(0 : ℚ)] := by
  have h : lastLoud [(0 : ℚ)] (1/1000) = none := by
    rw [lastLoud, lastLoud]
    norm_num
  rw [trimTrailingSilence_eq_of_none h]
  norm_num

/-- C4 (amended): on a fully silent buffer the Silence Trimmer returns the
first `int(sample_rate * max_tail_ms / 1000)` samples, i.e.
`x.take (sr * ms / 1000)`; this is a proper cut — never the full buffer —
exactly when the buffer is longer than that allowance, and a fully silent
1-second buffer at 16000 Hz with threshold `1/1000` and `max_ms = 200`
yields exactly the 3200-sample silent prefix. -/
theorem trimTrailingSilence_fully_silent :
    (∀ (α : Type) [LinearOrderedField α] (x : List α) (sr : ℕ) (th : α)
        (ms : ℕ), (∀ a ∈ x, ¬ th < |a|) →
        trimTrailingSilence x sr th ms = x.take (sr * ms / 1000)) ∧
    (∀ (α : Type) [LinearOrderedField α] (x : List α) (sr : ℕ) (th : α)
        (ms : ℕ), (∀ a ∈ x, ¬ th < |a|) → sr * ms / 1000 < x.length →
        trimTrailingSilence x sr th ms ≠ x) ∧
    trimTrailingSilence (List.replicate 16000 (0 : ℚ)) 16000 (1/1000) 200 =
      List.replicate 3200 (0 : ℚ) := by
  have part1 : ∀ (α : Type) [LinearOrderedField α] (x : List α) (sr : ℕ)
      (th : α) (ms : ℕ), (∀ a ∈ x, ¬ th < |a|) →
      trimTrailingSilence x sr th ms = x.take (sr * ms / 1000) := by
    intro α _ x sr th ms hsil
    by_cases hx : x = []
    · subst hx; rw [trimTrailingSilence]; simp
    · rw [trimTrailingSilence, if_neg hx, lastLoud_eq_none_iff.mpr hsil]
  refine ⟨part1, ?_, ?_⟩
  · intro α _ x sr th ms hsil hlt heq
    rw [part1 α x sr th ms hsil] at heq
    have hl := congrArg List.length heq
    rw [List.length_take] at hl
    omega
  · rw [part1 ℚ (List.replicate 16000 (0 : ℚ)) 16000 (1/1000) 200
      (fun a ha => by rw [List.eq_of_mem_replicate ha]; norm_num)]
    rw [List.take_replicate]
    norm_num

/-- C4 (witness for the amended theorem): the fully-silent two-sample buffer
`[0, 0]` at `1 Hz` with `max_ms = 200` keeps `int(1 * 200 / 1000) = 0`
samples. -/
theorem trimTrailingSilence_fully_silent_w :
    trimTrailingSilence [(0 : ℚ), 0] 1 (1/1000) 200 =
      ([(0 : ℚ), 0]).take (1 * 200 / 1000) :=
  trimTrailingSilence_fully_silent.1 ℚ [(0 : ℚ), 0] 1 (1/1000) 200
    (fun a ha => by
      rcases List.mem_cons.mp ha with rfl | ha'
      · norm_num
      · rcases List.mem_cons.mp ha' with rfl | ha''
        · norm_num
        · cases ha'')

/-- C8: the degenerate inputs are no-ops — `_soft_limit` returns an empty
buffer unchanged, it returns any buffer whose `max_abs` is below the `1e-9`
silence guard unchanged, and `_trim_trailing_silence` returns the empty
buffer unchanged (the shallow embedding makes all three total functions:
none of these paths can raise). -/
theorem softLimit_trim_degenerate_noop :
    (∀ t : ℝ, softLimit [] t = []) ∧
    (∀ (t : ℝ) (x : List ℝ), maxAbs x < 1e-9 → softLimit x t = x) ∧
    (∀ (α : Type) [LinearOrderedField α] (sr : ℕ) (th : α) (ms : ℕ),
      trimTrailingSilence ([] : List α) sr th ms = []) := by
  refine ⟨fun t => rfl, ?_, fun α _ sr th ms => rfl⟩
  intro t x h
  by_cases hx : x = []
  · subst hx; rfl
  · rw [softLimit, if_neg hx, if_pos h]

/-- C8 (witness): the one-sample buffer `[0]` has `max_abs = 0 < 1e-9` and
`_soft_limit` returns it unchanged (target `1`). -/
theorem softLimit_trim_degenerate_noop_w :
    maxAbs [(0 : ℝ)] < 1e-9 ∧ softLimit [(0 : ℝ)] 1 = [(0 : ℝ)] := by
  have h : maxAbs [(0 : ℝ)] < 1e-9 := by
    rw [maxAbs_cons, maxAbs_nil]
    norm_num
  exact ⟨h, softLimit_trim_degenerate_noop.2.1 1 [(0 : ℝ)] h⟩

/-! ### Numeric bounds for specific `tanh` values -/

theorem exp_point_two_two_lower : (11/9 : ℝ) < Real.exp 0.22 := by
  have h1 : (0.11 : ℝ) + 1 ≤ Real.exp 0.11 := Real.add_one_le_exp 0.11
  have h2 : Real.exp 0.22 = Real.exp 0.11 * Real.exp 0.11 := by
    rw [← Real.exp_add]; norm_num
  have h3 : (0 : ℝ) < Real.exp 0.11 := Real.exp_pos _
  rw [h2]
  nlinarith

theorem tanh_point_one_one_gt : (1/10 : ℝ) < Real.tanh 0.11 := by
  rw [tanh_eq_exp, show (2 : ℝ) * 0.11 = 0.22 by norm_num]
  have hlow := exp_point_two_two_lower
  have hp : (0 : ℝ) < Real.exp 0.22 := Real.exp_pos _
  rw [lt_div_iff₀ (by linarith)]
  nlinarith

theorem exp_point_five_five_lower : (5/3 : ℝ) < Real.exp 0.55 := by
  have h1 : (0.06875 : ℝ) + 1 ≤ Real.exp 0.06875 := Real.add_one_le_exp _
  have h8 : Real.exp 0.55 = Real.exp 0.06875 ^ (8 : ℕ) := by
    rw [← Real.exp_nat_mul]; norm_num
  have hpow : (1.06875 : ℝ) ^ (8 : ℕ) ≤ Real.exp 0.06875 ^ (8 : ℕ) :=
    pow_le_pow_left₀ (by norm_num) (by linarith) 8
  have hval : (5/3 : ℝ) < (1.06875 : ℝ) ^ (8 : ℕ) := by norm_num
  rw [h8]
  linarith

theorem tanh_point_two_seven_five_gt : (1/4 : ℝ) < Real.tanh 0.275 := by
  rw [tanh_eq_exp, show (2 : ℝ) * 0.275 = 0.55 by norm_num]
  have hlow := exp_point_five_five_lower
  have hp : (0 : ℝ) < Real.exp 0.55 := Real.exp_pos _
  rw [lt_div_iff₀ (by linarith)]
  nlinarith

/-! ### C1: peak bound of `_soft_limit` -/

/-- C1 (counterexample): for a *small* `target_peak_ratio` the Level
Normalizer does NOT bring the peak below the target.  With target `1/10`
and buffer `[1/5]` the premise `max_abs = 1/5 > 1/10` holds, the linear
scale brings the sample to `1/10`, and `tanh(1.1 * 1/10) = tanh(0.11) >
1/10`, so the output peak exceeds the target. -/
theorem softLimit_peak_exceeds_small_target :
    (1/10 : ℝ) < maxAbs [(1/5 : ℝ)] ∧
    (1/10 : ℝ) < maxAbs (softLimit [(1/5 : ℝ)] (1/10)) := by
  have hmax : maxAbs [(1/5 : ℝ)] = 1/5 := by
    rw [maxAbs_cons, maxAbs_nil]
    norm_num
  constructor
  · rw [hmax]; norm_num
  · have hs : softLimit [(1/5 : ℝ)] (1/10) =
        [Real.tanh (1/5 * ((1/10) / maxAbs [(1/5 : ℝ)]) * 1.1)] := by
      rw [softLimit,
        if_neg (by simp : ¬([(1/5 : ℝ)] = [])),
        if_neg (by rw [hmax]; norm_num : ¬(maxAbs [(1/5 : ℝ)] < 1e-9))]
      rw [if_pos (by rw [hmax]; norm_num : (1/10 : ℝ) < maxAbs [(1/5 : ℝ)])]
      simp
    rw [hs, maxAbs_cons, maxAbs_nil, hmax,
      show (1/5 : ℝ) * ((1/10) / (1/5)) * 1.1 = 0.11 by norm_num]
    have ht := tanh_point_one_one_gt
    have habs : |Real.tanh 0.11| = Real.tanh 0.11 :=
      abs_of_nonneg (tanh_nonneg (by norm_num))
    rw [habs]
    exact lt_max_of_lt_left ht

/-- C1 (amended): for the target actually used everywhere in the repository,
`TARGET_PEAK = 10^(-1/20) ≈ 0.891`, the claim holds — whenever
`max_abs > TARGET_PEAK`, `_soft_limit` returns a buffer whose maximum
absolute sample value is at most `TARGET_PEAK` (the scaled samples have
magnitude at most `TARGET_PEAK`, and `tanh(1.1 · x)` then keeps them below
`tanh(1.1) ≤ 0.86 ≤ TARGET_PEAK`).  The counterexample above shows the
unrestricted claim fails for small targets. -/
theorem softLimit_peak_le (x : List ℝ) (h : TARGET_PEAK < maxAbs x) :
    maxAbs (softLimit x TARGET_PEAK) ≤ TARGET_PEAK := by
  have hT0 := TARGET_PEAK_pos
  have hT86 := TARGET_PEAK_ge
  have hT1 := TARGET_PEAK_lt_one
  have hx : x ≠ [] := by
    rintro rfl
    rw [maxAbs_nil] at h
    linarith
  have hM : (0 : ℝ) < maxAbs x := lt_trans hT0 h
  have hq : ¬ maxAbs x < 1e-9 := by
    intro hc
    have : (1e-9 : ℝ) < 1 := by norm_num
    linarith
  rw [softLimit, if_neg hx, if_neg hq]
  simp only [if_pos h]
  apply maxAbs_le hT0.le
  intro a ha
  simp only [List.mem_map] at ha
  obtain ⟨s, hsmem, rfl⟩ := ha
  have hs : |s| ≤ maxAbs x := le_maxAbs_of_mem hsmem
  have harg : |s * (TARGET_PEAK / maxAbs x) * 1.1| ≤ 1.1 := by
    rw [abs_mul, abs_mul,
      abs_of_pos (div_pos hT0 hM),
      abs_of_pos (by norm_num : (0 : ℝ) < 1.1)]
    have h2 : |s| * (TARGET_PEAK / maxAbs x) ≤
        maxAbs x * (TARGET_PEAK / maxAbs x) :=
      mul_le_mul_of_nonneg_right hs (div_pos hT0 hM).le
    have heq : maxAbs x * (TARGET_PEAK / maxAbs x) = TARGET_PEAK := by
      field_simp
    nlinarith [abs_nonneg s]
  exact (abs_tanh_le_of_le harg).trans hT86

/-- C1 (witness for the amended theorem): the buffer `[1]` has
`max_abs = 1 > TARGET_PEAK` and soft-limiting it lands at or below
`TARGET_PEAK`. -/
theorem softLimit_peak_le_w :
    TARGET_PEAK < maxAbs [(1 : ℝ)] ∧
    maxAbs (softLimit [(1 : ℝ)] TARGET_PEAK) ≤ TARGET_PEAK := by
  have h : TARGET_PEAK < maxAbs [(1 : ℝ)] := by
    rw [maxAbs_cons, maxAbs_nil]
    simpa using TARGET_PEAK_lt_one
  exact ⟨h, softLimit_peak_le [(1 : ℝ)] h⟩

/-- C2: every sample produced by `_soft_limit` has magnitude strictly below
full scale, for every input buffer and every target: empty buffers give no
samples, the silence-guard branch returns samples below `1e-9`, and the
`tanh` branch is bounded by the strict asymptote `|tanh| < 1`. -/
theorem softLimit_no_clipping (x : List ℝ) (t : ℝ) :
    ∀ s ∈ softLimit x t, |s| < 1 := by
  intro s hs
  rw [softLimit] at hs
  by_cases hx : x = []
  · rw [if_pos hx, hx] at hs
    cases hs
  · rw [if_neg hx] at hs
    by_cases hq : maxAbs x < 1e-9
    · rw [if_pos hq] at hs
      have h1 := le_maxAbs_of_mem hs
      have h2 : (1e-9 : ℝ) < 1 := by norm_num
      linarith
    · rw [if_neg hq] at hs
      simp only [List.mem_map] at hs
      obtain ⟨a, _, rfl⟩ := hs
      exact abs_tanh_lt_one _

/-- C2 (witness): the sample `0` of `softLimit [0] 0 = [0]` has
magnitude below `1`. -/
theorem softLimit_no_clipping_w :
    (0 : ℝ) ∈ softLimit [(0 : ℝ)] 0 ∧ |(0 : ℝ)| < 1 := by
  have hmem : (0 : ℝ) ∈ softLimit [(0 : ℝ)] 0 := by
    have he : softLimit [(0 : ℝ)] 0 = [(0 : ℝ)] := by
      rw [softLimit, if_neg (by simp : ¬([(0 : ℝ)] = []))]
      rw [if_pos (by rw [maxAbs_cons, maxAbs_nil]; norm_num :
        maxAbs [(0 : ℝ)] < 1e-9)]
    rw [he]
    exact List.mem_singleton.mpr rfl
  exact ⟨hmem, softLimit_no_clipping [(0 : ℝ)] 0 0 hmem⟩

/-- C10: the Level Normalizer is not magnitude-non-increasing on quiet
audio.  The buffer `[1/4]` has `1e-9 < max_abs = 1/4 < TARGET_PEAK`, so the
linear scale is `1.0`, yet the output sample `tanh(1/4 · 1 · 1.1) =
tanh(0.275)` strictly exceeds the input sample `1/4` in magnitude. -/
theorem softLimit_amplifies_quiet :
    (1e-9 : ℝ) < maxAbs [(1/4 : ℝ)] ∧ maxAbs [(1/4 : ℝ)] < TARGET_PEAK ∧
    softLimit [(1/4 : ℝ)] TARGET_PEAK = [Real.tanh (1/4 * 1 * 1.1)] ∧
    |(1/4 : ℝ)| < |Real.tanh (1/4 * 1 * 1.1)| := by
  have hmax : maxAbs [(1/4 : ℝ)] = 1/4 := by
    rw [maxAbs_cons, maxAbs_nil]
    norm_num
  have hT86 := TARGET_PEAK_ge
  refine ⟨by rw [hmax]; norm_num, by rw [hmax]; linarith, ?_, ?_⟩
  · rw [softLimit, if_neg (by simp : ¬([(1/4 : ℝ)] = []))]
    rw [if_neg (by rw [hmax]; norm_num : ¬(maxAbs [(1/4 : ℝ)] < 1e-9))]
    rw [if_neg (by rw [hmax]; linarith : ¬(TARGET_PEAK < maxAbs [(1/4 : ℝ)]))]
    simp
  · have ht := tanh_point_two_seven_five_gt
    rw [show (1/4 : ℝ) * 1 * 1.1 = 0.275 by norm_num,
      abs_of_nonneg (by norm_num : (0 : ℝ) ≤ 1/4),
      abs_of_nonneg (tanh_nonneg (by norm_num : (0 : ℝ) ≤ 0.275))]
    exact ht

/-! ### C6 / C9: the demo validation gate -/

theorem demoArtifact_maxAbs_le (audio : List ℝ) (sr : ℕ) :
    maxAbs (demoArtifact audio sr) ≤ 0.9 := by
  have hlim : maxAbs (demoPeakLimit audio) ≤ 0.9 := by
    rw [demoPeakLimit]
    by_cases h : 0 < maxAbs audio
    · rw [if_pos h]
      apply maxAbs_le (by norm_num)
      intro a ha
      simp only [List.mem_map] at ha
      obtain ⟨s, hsm, rfl⟩ := ha
      have hs := le_maxAbs_of_mem hsm
      rw [abs_mul, abs_of_pos (show (0 : ℝ) < 0.9 / maxAbs audio by positivity)]
      have hmul : |s| * (0.9 / maxAbs audio) ≤
          maxAbs audio * (0.9 / maxAbs audio) :=
        mul_le_mul_of_nonneg_right hs (by positivity)
      have heq : maxAbs audio * (0.9 / maxAbs audio) = 0.9 := by
        field_simp
      linarith
    · rw [if_neg h]
      have h0 := maxAbs_nonneg audio
      have : maxAbs audio ≤ 0 := not_lt.mp h
      linarith
  rw [demoArtifact, demoTrimTail]
  cases hl : lastLoud (demoPeakLimit audio) (1e-3 : ℝ) with
  | some last => exact le_trans (maxAbs_take_le _ _) hlim
  | none => exact hlim

/-- The peak level reported by the demo validator never exceeds
`-0.5 dBFS`: the finalized buffer's `max_abs` is at most `0.9`, so
`20·log10(max_abs + 1e-9) ≤ 20·log10(0.9 + 1e-9) < -0.5`. -/
theorem demoPeakDb_le (audio : List ℝ) (sr : ℕ) :
    demoPeakDb audio sr ≤ -0.5 := by
  rw [demoPeakDb]
  have h0 : 0 ≤ maxAbs (demoArtifact audio sr) := maxAbs_nonneg _
  have h9 : maxAbs (demoArtifact audio sr) ≤ 0.9 := demoArtifact_maxAbs_le _ _
  have heps : (0 : ℝ) < 1e-9 := by norm_num
  have hxpos : (0 : ℝ) < maxAbs (demoArtifact audio sr) + 1e-9 := by linarith
  have hb : (1 : ℝ) < 10 := by norm_num
  have hr0 : (0 : ℝ) ≤ (10 : ℝ) ^ (-(1 : ℝ) / 40) :=
    (Real.rpow_pos_of_pos (by norm_num) _).le
  have hpow : ((10 : ℝ) ^ (-(1 : ℝ) / 40)) ^ (40 : ℕ) = 1 / 10 := by
    rw [← Real.rpow_natCast ((10 : ℝ) ^ (-(1 : ℝ) / 40)) 40,
      ← Real.rpow_mul (by norm_num : (0 : ℝ) ≤ 10)]
    rw [show (-(1 : ℝ) / 40) * ((40 : ℕ) : ℝ) = -1 by push_cast; ring,
      Real.rpow_neg_one]
    norm_num
  have hs : (0.91 : ℝ) ≤ (10 : ℝ) ^ (-(1 : ℝ) / 40) := by
    by_contra hc
    push_neg at hc
    have h40 : ((10 : ℝ) ^ (-(1 : ℝ) / 40)) ^ (40 : ℕ) <
        (0.91 : ℝ) ^ (40 : ℕ) :=
      pow_lt_pow_left₀ hc hr0 (by norm_num)
    rw [hpow] at h40
    have : (0.91 : ℝ) ^ (40 : ℕ) ≤ 1 / 10 := by norm_num
    linarith
  have key : maxAbs (demoArtifact audio sr) + 1e-9 ≤
      (10 : ℝ) ^ (-(1 : ℝ) / 40) := by
    have : (1e-9 : ℝ) ≤ 0.01 := by norm_num
    linarith
  have hlog := Real.logb_le_logb_of_le hb hxpos key
  rw [Real.logb_rpow (by norm_num : (0 : ℝ) < 10)
    (by norm_num : (10 : ℝ) ≠ 1)] at hlog
  linarith

/-- C6: the demo validator writes and returns the finalized buffer
unconditionally (the artifact field does not depend on the validation
checks, mirroring the source where `sf.write` precedes them), the exit code
is `0` exactly when both validation criteria pass (duration in `[27, 33]`
seconds and peak level at most `-0.5 dBFS`), and the exit code is always
`0` or `1`. -/
theorem demoFinalize_spec (audio : List ℝ) (sr : ℕ) :
    (demoFinalize audio sr).artifact = demoArtifact audio sr ∧
    ((demoFinalize audio sr).exitCode = 0 ↔
      (27 ≤ demoDuration audio sr ∧ demoDuration audio sr ≤ 33 ∧
        demoPeakDb audio sr ≤ -0.5)) ∧
    ((demoFinalize audio sr).exitCode = 0 ∨
      (demoFinalize audio sr).exitCode = 1) := by
  refine ⟨rfl, ?_, ?_⟩
  · show (if ¬ (27 ≤ demoDuration audio sr ∧ demoDuration audio sr ≤ 33)
        then 1 else if -0.5 < demoPeakDb audio sr then 1 else 0) = 0 ↔ _
    split_ifs with h1 h2
    · exact ⟨fun hco => hco.elim,
        fun hc => absurd h2 (not_lt.mpr hc.2.2)⟩
    · exact ⟨fun _ => ⟨h1.1, h1.2, not_lt.mp h2⟩, fun _ => rfl⟩
    · exact ⟨fun hco => hco.elim,
        fun hc => absurd ⟨hc.1, hc.2.1⟩ h1⟩
  · show (if ¬ (27 ≤ demoDuration audio sr ∧ demoDuration audio sr ≤ 33)
        then 1 else if -0.5 < demoPeakDb audio sr then 1 else 0) = 0 ∨
      (if ¬ (27 ≤ demoDuration audio sr ∧ demoDuration audio sr ≤ 33)
        then 1 else if -0.5 < demoPeakDb audio sr then 1 else 0) = 1
    split_ifs <;> simp

/-- C9: for every non-empty assembled buffer the demo validator's computed
peak level is at most `-0.5 dBFS` — the peak-level failure branch is
unreachable — so the exit code is `0` exactly when the duration criterion
alone passes. -/
theorem demo_peak_branch_unreachable (audio : List ℝ) (sr : ℕ)
    (h : audio ≠ []) :
    demoPeakDb audio sr ≤ -0.5 ∧
    ((demoFinalize audio sr).exitCode = 0 ↔
      (27 ≤ demoDuration audio sr ∧ demoDuration audio sr ≤ 33)) := by
  have hp := demoPeakDb_le audio sr
  refine ⟨hp, ?_⟩
  show (if ¬ (27 ≤ demoDuration audio sr ∧ demoDuration audio sr ≤ 33)
      then 1 else if -0.5 < demoPeakDb audio sr then 1 else 0) = 0 ↔ _
  split_ifs with h1 h2
  · exact absurd h2 (not_lt.mpr hp)
  · exact ⟨fun _ => h1, fun _ => rfl⟩
  · exact ⟨fun hco => hco.elim, fun hc => absurd hc h1⟩

/-- C9 (witness): the one-sample buffer `[1]` at `22050 Hz` is non-empty,
its finalized peak level is at most `-0.5 dBFS`, and its exit code is `0`
exactly when the duration check passes. -/
theorem demo_peak_branch_unreachable_w :
    [(1 : ℝ)] ≠ ([] : List ℝ) ∧
    (demoPeakDb [(1 : ℝ)] 22050 ≤ -0.5 ∧
      ((demoFinalize [(1 : ℝ)] 22050).exitCode = 0 ↔
        (27 ≤ demoDuration [(1 : ℝ)] 22050 ∧
          demoDuration [(1 : ℝ)] 22050 ≤ 33))) :=
  ⟨by simp, demo_peak_branch_unreachable [(1 : ℝ)] 22050 (by simp)⟩

/-- C5: the Sequence Assembler fails with the empty-sequence error on an
empty segment list — never returning a zero-length buffer as a success —
and succeeds (no error of any kind) on every non-empty segment list. -/
theorem assemble_empty_fails :
    (∀ (α : Type) [LinearOrderedField α] [FloorRing α],
      assemble ([] : List (List α × ℕ)) = .error .emptySequence) ∧
    (∀ (α : Type) [LinearOrderedField α] [FloorRing α]
      (s : List (List α × ℕ)), s ≠ [] → ∃ v, assemble s = .ok v) := by
  refine ⟨fun α _ _ => rfl, ?_⟩
  intro α _ _ s hs
  cases s with
  | nil => exact absurd rfl hs
  | cons a t => exact ⟨_, rfl⟩

/-- C5 (witness): the one-segment list `[([1], 22050)]` over `ℚ` is
non-empty and assembles successfully. -/
theorem assemble_empty_fails_w :
    [([(1 : ℚ)], 22050)] ≠ ([] : List (List ℚ × ℕ)) ∧
    ∃ v, assemble [([(1 : ℚ)], 22050)] = .ok v :=
  ⟨by simp, assemble_empty_fails.2 ℚ [([(1 : ℚ)], 22050)] (by simp)⟩

/-- C7 (counterexample): the value returned for an unavailable language is
*identical* to the value returned for a direct request of the fallback
language, so nothing in the returned result records that a fallback took
place — the returned pair `(buffer, sample_rate)` carries no language tag
(the fallback is only printed as a warning).  Here `"hau"` is unavailable,
the availability set is `["yor"]`, and the probe engine's buffers encode
which language was actually synthesized. -/
theorem synthesizeSegment_no_fallback_record :
    synthesizeSegment synthProbe ["yor"] 2 "hello" "hau" =
      synthesizeSegment synthProbe ["yor"] 2 "hello" "yor" ∧
    synthesizeSegment synthProbe ["yor"] 2 "hello" "hau" =
      some ([(1 : ℚ)], 22050) := by
  have hy : synthesizeSegment synthProbe ["yor"] 1 "hello" "yor" =
      some ([(1 : ℚ)], 22050) := by
    rw [synthesizeSegment]
    simp [synthProbe]
  have hh : synthesizeSegment synthProbe ["yor"] 2 "hello" "hau" =
      synthesizeSegment synthProbe ["yor"] 1 "hello" "yor" := by
    rw [synthesizeSegment]
    simp
  have hy2 : synthesizeSegment synthProbe ["yor"] 2 "hello" "yor" =
      some ([(1 : ℚ)], 22050) := by
    rw [synthesizeSegment]
    simp [synthProbe]
  exact ⟨by rw [hh, hy, hy2], by rw [hh, hy]⟩

/-- C7 (amended): for every segment whose requested language is unavailable
(and is not the specially-routed `"en"`), `synthesize_segment` of
`scripts/simple_demo.py` synthesizes using the fallback language `"yor"` —
returning exactly the engine's `"yor"` output when `"yor"` is available —
but the returned `(buffer, sample_rate)` carries no language tag: the
fallback is recorded only in a printed warning, not in the returned value
(see the counterexample).  (In `scripts/multilang_demo.py` the analogous
fallback target is `"en"`, not `"yor"`.) -/
theorem synthesizeSegment_fallback (α : Type)
    (synth : String → String → List α × ℕ) (avail : List String)
    (fuel : ℕ) (text lang : String) (h1 : lang ∉ avail) (h2 : lang ≠ "en")
    (h3 : "yor" ∈ avail) :
    synthesizeSegment synth avail (fuel + 2) text lang =
      some (synth text "yor") := by
  rw [synthesizeSegment, if_neg h2, if_neg h1]
  rw [synthesizeSegment]
  rw [if_neg (by simp : ¬("yor" = "en")), if_pos h3]

/-- C7 (witness for the amended theorem): requesting the unavailable
language `"hau"` with availability `["yor"]` returns exactly the engine's
`"yor"` output. -/
theorem synthesizeSegment_fallback_w :
    synthesizeSegment synthProbe ["yor"] 2 "x" "hau" =
      some (synthProbe "x" "yor") :=
  synthesizeSegment_fallback ℚ synthProbe ["yor"] 0 "x" "hau"
    (by simp) (by simp) (by simp)

end TTSPipeline
